import Mathlib

/-!
# Click aggregation pipeline of `clicker_test`

A shallow embedding of `internal/service/service.go` (RegisterClick, ProcessClicks,
flushClicks) and of `internal/repository/repository.go` (SaveClicks, BannerExists).
Of `main.go` the model keeps what the pipeline sees: the service is built by
`NewService`, `ProcessClicks` is started on a context, and that context is cancelled.

Modelling conventions
* `uuid.UUID` is an identifier on which only equality is used: `Nat`.
* Go `int` counters are `Int`.  A counter of the click map grows by one per received
  event and is reset every flush, so the 64 bit range is never approached and no
  wrap-around is modelled.
* A Go `map[uuid.UUID]int` is an association list; the order of the list is the
  (unspecified) iteration order of `range`.
* The buffered channel `clicks` is the list of its buffered values, oldest first.
* Every `select` is resolved by an explicit argument naming the branch that fired.
* A context is `done` when its `Done()` channel is closed.  `RegisterClick` receives the
  `*gin.Context` of the request (`handler.go:54`) from the engine built by
  `gin.Default()` (`main.go:65`); the `Done()` of such a context is a nil channel, so
  every request of the running program has `done = false`.
* Calls made by the service on the repository interface and on its logger are recorded
  in a trace.
* Each function is one atomic step.  The mutex `mu` of the service only guards
  `clickMap`, which no goroutine but the worker touches, and is not modelled; neither
  is the read lock taken around the loop of `SaveClicks`.
-/

namespace Clicker

/-! ## Basic data -/

/-- Banner identifier (`uuid.UUID`). -/
abbrev UUID := Nat

/-- Go `error` values that flow through the service. -/
inductive Error where
  /-- Value of `errors.New("banner not found")`. -/
  | bannerNotFound
  /-- Value of `ctx.Err()` once the context is done. -/
  | canceled
  /-- Any error reported by the database driver. -/
  | database (code : Nat)
  deriving DecidableEq, Repr

/-- A `context.Context`, reduced to what the code observes: whether `Done()` is closed. -/
structure Context where
  done : Bool
  deriving DecidableEq, Repr

/-- Result of `ctx.Err()`: nil while the context is live. -/
def Context.Err (ctx : Context) : Option Error :=
  if ctx.done then some Error.canceled else none

/-- The accumulation buffer `map[uuid.UUID]int`. -/
abbrev ClickMap := List (UUID × Int)

/-- Two-valued map read `v, ok := m[k]`. -/
def ClickMap.find : ClickMap → UUID → Option Int
  | [], _ => none
  | (k1, v1) :: rest, k => if k1 = k then some v1 else ClickMap.find rest k

/-- Map read `m[k]`, the zero value when the key is absent. -/
def ClickMap.get (m : ClickMap) (k : UUID) : Int :=
  match m.find k with
  | some v => v
  | none => 0

/-- Map write `m[k] = v`. -/
def ClickMap.set : ClickMap → UUID → Int → ClickMap
  | [], k, v => [(k, v)]
  | (k1, v1) :: rest, k, v =>
    if k1 = k then (k1, v) :: rest else (k1, v1) :: ClickMap.set rest k v

/-- Statement `m[k]++`. -/
def ClickMap.incr (m : ClickMap) (k : UUID) : ClickMap :=
  m.set k (m.get k + 1)

/-- Key set of a map. -/
def ClickMap.keys (m : ClickMap) : List UUID :=
  m.map Prod.fst

/-! ## Repository interface and call trace -/

/-- Calls made by the service on its collaborators. -/
inductive Event where
  /-- One invocation of `flushClicks`. -/
  | flushClicks
  /-- One call `repo.SaveClicks(ctx, clicks)` together with the error it returned. -/
  | SaveClicks (ctx : Context) (clicks : ClickMap) (err : Option Error)
  /-- One call `logger.Error(msg, ...)`. -/
  | logError (msg : String)
  deriving DecidableEq, Repr

/-- The part of the `repository.Repository` interface used by the pipeline, as state
transformers over the state `σ` that lives behind the interface. -/
structure Repository (σ : Type) where
  SaveClicks : Context → ClickMap → σ → Option Error × σ
  BannerExists : Context → UUID → σ → Except Error Bool × σ

/-! ## The service -/

/-- The mutable part of `type service struct`: the buffered channel and the map. -/
structure service where
  clicks : List UUID
  clickMap : ClickMap
  deriving DecidableEq, Repr

/-- Capacity of the channel made by `NewService`: `make(chan uuid.UUID, 1000)`. -/
def clicksCap : Nat := 1000

/-- State built by `NewService`: an empty channel and an empty map. -/
def NewService : service :=
  { clicks := [], clickMap := [] }

/-- What one call leaves behind: the service, the repository state and the calls made. -/
structure Outcome (σ : Type) where
  svc : service
  db : σ
  trace : List Event

/-- Function `flushClicks`: swap the map for a fresh one and hand the old one to
`SaveClicks`; nothing is saved when the map is empty; a failure is only logged. -/
def flushClicks {σ : Type} (repo : Repository σ) (ctx : Context) (s : service) (db : σ) :
    Outcome σ :=
  if s.clickMap.length = 0 then
    { svc := s, db := db, trace := [Event.flushClicks] }
  else
    let clicks := s.clickMap
    let s1 : service := { s with clickMap := [] }
    match repo.SaveClicks ctx clicks db with
    | (none, db1) =>
      { svc := s1, db := db1,
        trace := [Event.flushClicks, Event.SaveClicks ctx clicks none] }
    | (some err, db1) =>
      { svc := s1, db := db1,
        trace := [Event.flushClicks, Event.SaveClicks ctx clicks (some err),
                  Event.logError "Failed to save clicks"] }

/-- The branch of the `select` in `ProcessClicks` that fired. -/
inductive Select where
  /-- Branch `case <-ctx.Done()`. -/
  | done
  /-- Branch `case bannerID := <-s.clicks`, with the value received. -/
  | recv (bannerID : UUID)
  /-- Branch `case <-ticker.C`. -/
  | tick
  deriving DecidableEq, Repr

/-- Result of one iteration of the loop of `ProcessClicks`; `returned` tells whether the
iteration executed `return`. -/
structure Iter (σ : Type) where
  svc : service
  db : σ
  trace : List Event
  returned : Bool

/-- One iteration of the `for`/`select` loop of `ProcessClicks`, given the branch taken. -/
def loopBody {σ : Type} (repo : Repository σ) (ctx : Context) (sel : Select)
    (s : service) (db : σ) : Iter σ :=
  match sel with
  | Select.done =>
    let r := flushClicks repo ctx s db
    { svc := r.svc, db := r.db, trace := r.trace, returned := true }
  | Select.recv bannerID =>
    { svc := { s with clickMap := s.clickMap.incr bannerID }, db := db, trace := [],
      returned := false }
  | Select.tick =>
    let r := flushClicks repo ctx s db
    { svc := r.svc, db := r.db, trace := r.trace, returned := false }

/-- Function `ProcessClicks` run on a finite sequence of `select` outcomes: the loop goes
on until an iteration returns; outcomes after that point are never looked at. -/
def ProcessClicks {σ : Type} (repo : Repository σ) (ctx : Context) :
    List Select → service → σ → Iter σ
  | [], s, db => { svc := s, db := db, trace := [], returned := false }
  | sel :: rest, s, db =>
    let r := loopBody repo ctx sel s db
    if r.returned then r
    else
      let r2 := ProcessClicks repo ctx rest r.svc r.db
      { svc := r2.svc, db := r2.db, trace := r.trace ++ r2.trace, returned := r2.returned }

/-- The maps handed to `SaveClicks` in a trace, in call order. -/
def savedMaps : List Event → List ClickMap
  | [] => []
  | Event.SaveClicks _ clicks _ :: rest => clicks :: savedMaps rest
  | _ :: rest => savedMaps rest

/-- Number of `flushClicks` invocations in a trace. -/
def flushCalls : List Event → Nat
  | [] => 0
  | Event.flushClicks :: rest => flushCalls rest + 1
  | _ :: rest => flushCalls rest

/-- Resolution of the `select` in `RegisterClick` when both of its branches are ready;
Go then picks one of them at random. -/
inductive Pick where
  /-- Branch `case s.clicks <- bannerID`. -/
  | send
  /-- Branch `case <-ctx.Done()`. -/
  | done
  deriving DecidableEq, Repr

/-- What a completed `RegisterClick` call leaves behind, with the error it returned. -/
structure Reply (σ : Type) where
  err : Option Error
  svc : service
  db : σ
  trace : List Event

/-- Function `RegisterClick`.  The result is `none` when the call does not complete in
the given state: the channel is full and the context of the caller is live, so that the
`select` stays blocked. -/
def RegisterClick {σ : Type} (repo : Repository σ) (ctx : Context) (bannerID : UUID)
    (pick : Pick) (s : service) (db : σ) : Option (Reply σ) :=
  match repo.BannerExists ctx bannerID db with
  | (Except.error err, db1) =>
    some { err := some err, svc := s, db := db1,
           trace := [Event.logError "Failed banner exists method"] }
  | (Except.ok false, db1) =>
    some { err := some Error.bannerNotFound, svc := s, db := db1,
           trace := [Event.logError "Banner not found"] }
  | (Except.ok true, db1) =>
    let sent : Reply σ :=
      { err := none, svc := { s with clicks := s.clicks ++ [bannerID] }, db := db1,
        trace := [] }
    let cancelled : Reply σ := { err := ctx.Err, svc := s, db := db1, trace := [] }
    if s.clicks.length < clicksCap then
      if ctx.done then
        match pick with
        | Pick.send => some sent
        | Pick.done => some cancelled
      else some sent
    else
      if ctx.done then some cancelled else none

/-! ## The pipeline as a transition system -/

/-- Global state of the pipeline: the service, the context handed to `ProcessClicks` in
`main`, whether `ProcessClicks` has returned, the state behind the repository, the calls
made so far, and the list of events for which `RegisterClick` returned nil. -/
structure State (σ : Type) where
  svc : service
  ctx : Context
  stopped : Bool
  db : σ
  trace : List Event
  accepted : List UUID

/-- Branch of the worker `select` chosen by the scheduler; the value of a receive is the
head of the channel. -/
inductive Branch where
  | done
  | recv
  | tick
  deriving DecidableEq, Repr

/-- Atomic steps of the pipeline. -/
inductive Action where
  /-- A handler calls `RegisterClick` with its own request context. -/
  | register (reqCtx : Context) (bannerID : UUID) (pick : Pick)
  /-- The context of the worker is cancelled. -/
  | cancel
  /-- The worker runs one iteration of its loop through the given branch. -/
  | worker (b : Branch)
  deriving DecidableEq, Repr

/-- State after `NewService` and `go ProcessClicks(ctx)`. -/
def State.init {σ : Type} (db : σ) : State σ :=
  { svc := NewService, ctx := { done := false }, stopped := false, db := db,
    trace := [], accepted := [] }

/-- Fold one loop iteration of the worker into the global state. -/
def State.afterIter {σ : Type} (st : State σ) (r : Iter σ) : State σ :=
  { st with svc := r.svc, db := r.db, trace := st.trace ++ r.trace,
            stopped := r.returned }

/-- One atomic step.  A step that is not enabled (a blocked `RegisterClick`, a branch of
the worker that is not ready, any step of a worker that has returned) changes nothing. -/
def step {σ : Type} (repo : Repository σ) (st : State σ) : Action → State σ
  | Action.register reqCtx bannerID pick =>
    match RegisterClick repo reqCtx bannerID pick st.svc st.db with
    | none => st
    | some r =>
      { st with svc := r.svc, db := r.db, trace := st.trace ++ r.trace,
                accepted := if r.err = none then st.accepted ++ [bannerID]
                            else st.accepted }
  | Action.cancel => { st with ctx := { done := true } }
  | Action.worker b =>
    if st.stopped then st
    else
      match b with
      | Branch.done =>
        if st.ctx.done then st.afterIter (loopBody repo st.ctx Select.done st.svc st.db)
        else st
      | Branch.recv =>
        match st.svc.clicks with
        | [] => st
        | bannerID :: rest =>
          st.afterIter
            (loopBody repo st.ctx (Select.recv bannerID) { st.svc with clicks := rest } st.db)
      | Branch.tick => st.afterIter (loopBody repo st.ctx Select.tick st.svc st.db)

/-- Run a schedule of atomic steps. -/
def run {σ : Type} (repo : Repository σ) (st : State σ) (acts : List Action) : State σ :=
  acts.foldl (step repo) st

/-- Total count recorded for a banner in the maps handed to `SaveClicks` in a trace. -/
def handedCount (trace : List Event) (b : UUID) : Int :=
  ((savedMaps trace).map (fun m => ClickMap.get m b)).sum

/-! ## The repository (`internal/repository/repository.go`) -/

/-- Instants, in nanoseconds since the zero value of `time.Time`. -/
abbrev Time := Int

/-- Constant `time.Minute`, in nanoseconds. -/
def Minute : Int := 60000000000

/-- Method `Time.Truncate` of the Go standard library: round `t` down to a multiple of
`d` since the zero time; `t` is returned unchanged when `d <= 0`. -/
def Truncate (t : Time) (d : Int) : Time :=
  if d ≤ 0 then t else t - t % d

/-- Row of table `clicks` (`model.ClickStat`). -/
structure ClickStat where
  Timestamp : Time
  BannerID : UUID
  Count : Int
  deriving DecidableEq, Repr

/-- Row of table `banners` (`model.Banner`). -/
structure Banner where
  ID : UUID
  Name : String
  deriving DecidableEq, Repr

/-- The database operation, if any, that the driver fails during one repository call. -/
inductive Fault where
  /-- No operation fails. -/
  | never
  /-- Call `db.BeginTx` fails. -/
  | begin (err : Error)
  /-- Call `tx.PrepareContext` fails. -/
  | prepare (err : Error)
  /-- The `ExecContext` call number `i` of the loop (from 0) fails. -/
  | exec (i : Nat) (err : Error)
  /-- Call `tx.Commit` fails. -/
  | commit (err : Error)
  /-- Call `QueryRowContext(...).Scan` fails. -/
  | query (err : Error)
  deriving DecidableEq, Repr

/-- Everything behind the repository: both tables, the reading of the wall clock that
`time.Now()` returns, and the fault the driver is about to produce. -/
structure DB where
  clicks : List ClickStat
  banners : List Banner
  now : Time
  fault : Fault
  deriving DecidableEq, Repr

/-- Whether a row carries the key `(timestamp, banner_id)`. -/
def ClickStat.hasKey (r : ClickStat) (ts : Time) (b : UUID) : Bool :=
  decide (r.Timestamp = ts) && decide (r.BannerID = b)

/-- The prepared statement
`INSERT INTO clicks (timestamp, banner_id, count) VALUES ($1, $2, $3)
 ON CONFLICT (timestamp, banner_id) DO UPDATE SET count = clicks.count + EXCLUDED.count`:
a row with the same key gets the count added, otherwise the row is inserted. -/
def upsert (rows : List ClickStat) (ts : Time) (b : UUID) (c : Int) : List ClickStat :=
  if rows.any (fun r => r.hasKey ts b) then
    rows.map (fun r => if r.hasKey ts b then { r with Count := r.Count + c } else r)
  else
    rows ++ [{ Timestamp := ts, BannerID := b, Count := c }]

/-- Count stored under a key, if the key has a row. -/
def countAt (rows : List ClickStat) (ts : Time) (b : UUID) : Option Int :=
  (rows.find? (fun r => r.hasKey ts b)).map (fun r => r.Count)

/-- Call `db.BeginTx(ctx, nil)` of `database/sql`: it returns the error of the context
when the context is already done, before any driver work. -/
def BeginTx (ctx : Context) (fault : Fault) : Option Error :=
  if ctx.done then ctx.Err
  else
    match fault with
    | Fault.begin err => some err
    | _ => none

/-- Error of `tx.PrepareContext`, if it fails. -/
def Fault.prepareErr : Fault → Option Error
  | Fault.prepare err => some err
  | _ => none

/-- Error of the `ExecContext` call number `i`, if it fails. -/
def Fault.execErr : Fault → Nat → Option Error
  | Fault.exec j err, i => if j = i then some err else none
  | _, _ => none

/-- Error of `tx.Commit`, if it fails. -/
def Fault.commitErr : Fault → Option Error
  | Fault.commit err => some err
  | _ => none

/-- Error of `QueryRowContext(...).Scan`, if it fails. -/
def Fault.queryErr : Fault → Option Error
  | Fault.query err => some err
  | _ => none

/-- The loop `for bannerID, count := range clicks` of `SaveClicks`, from call number `i`:
every entry is upserted under the one timestamp `now`; the first failing `ExecContext`
ends the loop with its error. -/
def execLoop (fault : Fault) (now : Time) :
    Nat → List (UUID × Int) → List ClickStat → Except Error (List ClickStat)
  | _, [], rows => Except.ok rows
  | i, (bannerID, count) :: rest, rows =>
    match fault.execErr i with
    | some err => Except.error err
    | none => execLoop fault now (i + 1) rest (upsert rows now bannerID count)

/-- Function `SaveClicks` of the repository.  Every failure path rolls the transaction
back (or never commits it), so the tables are then unchanged. -/
def SaveClicks (ctx : Context) (clicks : ClickMap) (db : DB) : Option Error × DB :=
  match BeginTx ctx db.fault with
  | some err => (some err, db)
  | none =>
    match db.fault.prepareErr with
    | some err => (some err, db)
    | none =>
      let now := Truncate db.now Minute
      match execLoop db.fault now 0 clicks db.clicks with
      | Except.error err => (some err, db)
      | Except.ok rows =>
        match db.fault.commitErr with
        | some err => (some err, db)
        | none => (none, { db with clicks := rows })

/-- Function `BannerExists` of the repository: a read of table `banners`. -/
def BannerExists (ctx : Context) (bannerID : UUID) (db : DB) : Except Error Bool × DB :=
  if ctx.done then (Except.error Error.canceled, db)
  else
    match db.fault.queryErr with
    | some err => (Except.error err, db)
    | none => (Except.ok (db.banners.any (fun b => decide (b.ID = bannerID))), db)

/-- The repository built by `NewRepository`. -/
def NewRepository : Repository DB :=
  { SaveClicks := SaveClicks, BannerExists := BannerExists }

/-- A database with the banners 1 (`A`) and 2 (`B`), no click rows, a healthy driver and
a clock reading 90.5 seconds past a minute boundary. -/
def sampleDB : DB :=
  { clicks := [],
    banners := [{ ID := 1, Name := "A" }, { ID := 2, Name := "B" }],
    now := 600000000000 + 90500000000,
    fault := Fault.never }

/-- A request context that is live. -/
def liveCtx : Context := { done := false }

/-- Schedule in which one click on banner 1 is accepted and the worker is then cancelled
and takes its cancellation branch, without having received the click. -/
def shutdownSchedule : List Action :=
  [Action.register liveCtx 1 Pick.send, Action.cancel, Action.worker Branch.done]

/-- Schedule that leaves the map at `{1: 5, 2: 2}` with an empty channel: seven accepted
clicks, all received by the worker, no timer tick. -/
def pendingSchedule : List Action :=
  List.replicate 5 (Action.register liveCtx 1 Pick.send) ++
    List.replicate 2 (Action.register liveCtx 2 Pick.send) ++
    List.replicate 7 (Action.worker Branch.recv)

/-- The sample database after an earlier flush of the same minute stored 3 clicks on
banner 1; banner 2 has a row from the minute before. -/
def storedDB : DB :=
  { sampleDB with
    clicks := [{ Timestamp := 660000000000, BannerID := 1, Count := 3 },
               { Timestamp := 600000000000, BannerID := 2, Count := 4 }] }

/-! ## Lemmas on the click map -/

theorem find_set_self (m : ClickMap) (k : UUID) (v : Int) :
    (m.set k v).find k = some v := by
  induction m with
  | nil => simp [ClickMap.set, ClickMap.find]
  | cons e rest ih =>
    obtain ⟨k1, v1⟩ := e
    by_cases h : k1 = k
    · simp [ClickMap.set, ClickMap.find, h]
    · simp [ClickMap.set, ClickMap.find, h, ih]

theorem find_set_ne (m : ClickMap) (k k2 : UUID) (v : Int) (hne : k2 ≠ k) :
    (m.set k v).find k2 = m.find k2 := by
  induction m with
  | nil =>
    have : ¬ k = k2 := fun h => hne h.symm
    simp [ClickMap.set, ClickMap.find, this]
  | cons e rest ih =>
    obtain ⟨k1, v1⟩ := e
    by_cases h : k1 = k
    · subst h
      have : ¬ k1 = k2 := fun h => hne h.symm
      simp [ClickMap.set, ClickMap.find, this]
    · by_cases h2 : k1 = k2
      · subst h2
        simp [ClickMap.set, ClickMap.find, hne]
      · simp [ClickMap.set, ClickMap.find, h, h2, ih]

theorem find_incr_self (m : ClickMap) (k : UUID) :
    (m.incr k).find k = some (m.get k + 1) := by
  unfold ClickMap.incr
  exact find_set_self m k _

theorem find_incr_ne (m : ClickMap) (k k2 : UUID) (hne : k2 ≠ k) :
    (m.incr k).find k2 = m.find k2 := by
  unfold ClickMap.incr
  exact find_set_ne m k k2 _ hne

theorem get_incr_self (m : ClickMap) (k : UUID) :
    (m.incr k).get k = m.get k + 1 := by
  simp only [ClickMap.get, find_incr_self]

theorem get_incr_ne (m : ClickMap) (k k2 : UUID) (hne : k2 ≠ k) :
    (m.incr k).get k2 = m.get k2 := by
  simp only [ClickMap.get, find_incr_ne m k k2 hne]

/-- Reading the map after a run of increments: an untouched key keeps its entry, a key
hit `n > 0` times holds its old value plus `n`. -/
theorem find_foldl_incr (evs : List UUID) (m : ClickMap) (b : UUID) :
    (evs.foldl ClickMap.incr m).find b =
      if evs.count b = 0 then m.find b else some (m.get b + (evs.count b : Int)) := by
  induction evs generalizing m with
  | nil => simp
  | cons e rest ih =>
    rw [List.foldl_cons, ih (m.incr e)]
    by_cases heb : e = b
    · subst heb
      rw [find_incr_self, get_incr_self]
      by_cases h0 : List.count e rest = 0
      · simp [h0]
      · simp only [h0, if_false, List.count_cons_self]
        have : List.count e rest + 1 ≠ 0 := by omega
        simp only [this, if_false]
        congr 1
        push_cast
        ring
    · have hbe : b ≠ e := fun h => heb h.symm
      rw [find_incr_ne m e b hbe, get_incr_ne m e b hbe]
      simp [List.count_cons, heb]

/-- A run of receive iterations only increments the map: nothing is flushed, nothing is
returned, the repository is not touched. -/
theorem ProcessClicks_recv {σ : Type} (repo : Repository σ) (ctx : Context)
    (evs : List UUID) (s : service) (db : σ) :
    (ProcessClicks repo ctx (evs.map Select.recv) s db).svc =
        { s with clickMap := evs.foldl ClickMap.incr s.clickMap } ∧
      (ProcessClicks repo ctx (evs.map Select.recv) s db).db = db ∧
      (ProcessClicks repo ctx (evs.map Select.recv) s db).trace = [] ∧
      (ProcessClicks repo ctx (evs.map Select.recv) s db).returned = false := by
  induction evs generalizing s with
  | nil => simp [ProcessClicks]
  | cons e rest ih =>
    have h := ih { s with clickMap := s.clickMap.incr e }
    simp only [List.map_cons, ProcessClicks, loopBody, Bool.false_eq_true, if_false,
      List.nil_append, List.foldl_cons]
    exact h

theorem length_set_pos (m : ClickMap) (k : UUID) (v : Int) : (m.set k v).length ≠ 0 := by
  cases m with
  | nil => simp [ClickMap.set]
  | cons e rest =>
    obtain ⟨k1, v1⟩ := e
    by_cases h : k1 = k <;> simp [ClickMap.set, h]

theorem foldl_incr_ne_nil (evs : List UUID) (m : ClickMap) (h : evs ≠ [] ∨ m ≠ []) :
    evs.foldl ClickMap.incr m ≠ [] := by
  induction evs generalizing m with
  | nil =>
    rcases h with h | h
    · exact absurd rfl h
    · simpa using h
  | cons e rest ih =>
    rw [List.foldl_cons]
    apply ih
    right
    intro hnil
    have := length_set_pos m e (m.get e + 1)
    unfold ClickMap.incr at hnil
    rw [hnil] at this
    exact this rfl

/-- What `flushClicks` does on a map that is not empty. -/
theorem flushClicks_nonempty {σ : Type} (repo : Repository σ) (ctx : Context)
    (s : service) (db : σ) (h : s.clickMap ≠ []) :
    (flushClicks repo ctx s db).svc = { s with clickMap := [] } ∧
      (flushClicks repo ctx s db).db = (repo.SaveClicks ctx s.clickMap db).2 ∧
      savedMaps (flushClicks repo ctx s db).trace = [s.clickMap] ∧
      flushCalls (flushClicks repo ctx s db).trace = 1 ∧
      Event.SaveClicks ctx s.clickMap (repo.SaveClicks ctx s.clickMap db).1 ∈
        (flushClicks repo ctx s db).trace := by
  have hlen : ¬ s.clickMap.length = 0 := by
    intro h0
    exact h (List.length_eq_zero.mp h0)
  unfold flushClicks
  rw [if_neg hlen]
  rcases hsave : repo.SaveClicks ctx s.clickMap db with ⟨err, db1⟩
  cases err <;> simp [hsave, savedMaps, flushCalls]

/-- What `flushClicks` does on an empty map. -/
theorem flushClicks_empty {σ : Type} (repo : Repository σ) (ctx : Context)
    (s : service) (db : σ) (h : s.clickMap = []) :
    flushClicks repo ctx s db = { svc := s, db := db, trace := [Event.flushClicks] } := by
  unfold flushClicks
  simp [h]

theorem flushClicks_summary {σ : Type} (repo : Repository σ) (ctx : Context)
    (s : service) (db : σ) :
    (flushClicks repo ctx s db).svc = { s with clickMap := [] } ∧
      savedMaps (flushClicks repo ctx s db).trace =
        (if s.clickMap = [] then [] else [s.clickMap]) ∧
      flushCalls (flushClicks repo ctx s db).trace = 1 := by
  by_cases h : s.clickMap = []
  · rw [flushClicks_empty repo ctx s db h]
    refine ⟨?_, ?_, ?_⟩
    · cases s
      simp_all
    · simp [h, savedMaps]
    · simp [flushCalls]
  · obtain ⟨h1, _, h3, h4, _⟩ := flushClicks_nonempty repo ctx s db h
    exact ⟨h1, by simp [h, h3], h4⟩

/-! ## Accumulation and flush -/

/-- C1: after the loop of `ProcessClicks` has consumed the events `evs`, starting from an
empty map and without any flush in between (no call is made, the loop has not returned),
the next `flushClicks` hands to `SaveClicks` exactly one map when `evs` is not empty, and
that map sends every banner id to the number of its occurrences in `evs` and has no
other key; the result therefore does not depend on the order of the events. -/
theorem C1_flush_counts_events {σ : Type} (repo : Repository σ) (ctx : Context)
    (evs queue : List UUID) (db : σ) :
    let s0 : service := { clicks := queue, clickMap := [] }
    let r := ProcessClicks repo ctx (evs.map Select.recv) s0 db
    let f := flushClicks repo ctx r.svc r.db
    r.returned = false ∧ r.trace = [] ∧
      savedMaps f.trace = (if evs = [] then [] else [r.svc.clickMap]) ∧
      (∀ b : UUID, r.svc.clickMap.find b =
        if evs.count b = 0 then none else some (evs.count b : Int)) ∧
      (∀ evs2 : List UUID, evs.Perm evs2 → ∀ b : UUID,
        (ProcessClicks repo ctx (evs2.map Select.recv) s0 db).svc.clickMap.find b =
          r.svc.clickMap.find b) := by
  intro s0 r f
  obtain ⟨hsvc, hdb, htr, hret⟩ := ProcessClicks_recv repo ctx evs s0 db
  have hmap : r.svc.clickMap = evs.foldl ClickMap.incr [] := by
    show (ProcessClicks repo ctx (evs.map Select.recv) s0 db).svc.clickMap = _
    rw [hsvc]
  have hfind : ∀ b : UUID, r.svc.clickMap.find b =
      if evs.count b = 0 then none else some (evs.count b : Int) := by
    intro b
    rw [hmap, find_foldl_incr]
    simp [ClickMap.find, ClickMap.get]
  refine ⟨hret, htr, ?_, hfind, ?_⟩
  · have hs := (flushClicks_summary repo ctx r.svc r.db).2.1
    show savedMaps (flushClicks repo ctx r.svc r.db).trace = _
    rw [hs]
    by_cases he : evs = []
    · subst he
      simp [hmap]
    · have hne : r.svc.clickMap ≠ [] := by
        rw [hmap]
        exact foldl_incr_ne_nil evs [] (Or.inl he)
      simp [he, hne]
  · intro evs2 hperm b
    rw [hfind b]
    obtain ⟨hsvc2, _, _, _⟩ := ProcessClicks_recv repo ctx evs2 s0 db
    rw [hsvc2]
    show (evs2.foldl ClickMap.incr []).find b = _
    rw [find_foldl_incr, hperm.count_eq b]
    simp [ClickMap.find, ClickMap.get]

/-- C2: for every map and every behaviour of the storage call, `flushClicks` leaves the
map empty and the channel untouched; it calls `SaveClicks` exactly once, on exactly the
previous map, when that map was not empty, and not at all when it was empty; the
snapshot is not put back whatever `SaveClicks` returned; and an iteration through the
timer branch does not return, so that the loop goes on with the remaining events. -/
theorem C2_flushClicks_resets_buffer {σ : Type} (repo : Repository σ) (ctx : Context)
    (s : service) (db : σ) (rest : List Select) :
    let f := flushClicks repo ctx s db
    let it := loopBody repo ctx Select.tick s db
    let r := ProcessClicks repo ctx (Select.tick :: rest) s db
    let r2 := ProcessClicks repo ctx rest f.svc f.db
    f.svc.clickMap = [] ∧ f.svc.clicks = s.clicks ∧
      savedMaps f.trace = (if s.clickMap = [] then [] else [s.clickMap]) ∧
      (s.clickMap = [] → f.db = db) ∧
      (s.clickMap ≠ [] →
        f.db = (repo.SaveClicks ctx s.clickMap db).2 ∧
        Event.SaveClicks ctx s.clickMap (repo.SaveClicks ctx s.clickMap db).1 ∈ f.trace) ∧
      it.returned = false ∧ it.svc = f.svc ∧ it.trace = f.trace ∧
      r.returned = r2.returned ∧ r.svc = r2.svc ∧ r.db = r2.db ∧
      r.trace = f.trace ++ r2.trace := by
  intro f it r r2
  obtain ⟨h1, h2, _⟩ := flushClicks_summary repo ctx s db
  refine ⟨?_, ?_, h2, ?_, ?_, rfl, rfl, rfl, ?_, ?_, ?_, ?_⟩
  · show (flushClicks repo ctx s db).svc.clickMap = []
    rw [h1]
  · show (flushClicks repo ctx s db).svc.clicks = s.clicks
    rw [h1]
  · intro h
    show (flushClicks repo ctx s db).db = db
    rw [flushClicks_empty repo ctx s db h]
  · intro h
    obtain ⟨_, hdb, _, _, hmem⟩ := flushClicks_nonempty repo ctx s db h
    exact ⟨hdb, hmem⟩
  all_goals simp [r, r2, f, ProcessClicks, loopBody]

/-- C5: the iteration taken on cancellation calls `flushClicks` exactly once, hence calls
`SaveClicks` at most once and then on the whole pending map, and returns: whatever
`select` outcomes follow are never consumed.  In the transition system the step makes
the worker stopped, and a stopped worker changes nothing, whichever branch is offered. -/
theorem C5_cancel_flushes_once_then_stops {σ : Type} (repo : Repository σ) (ctx : Context)
    (s : service) (db : σ) (rest : List Select) (st : State σ) (b : Branch) :
    let f := flushClicks repo ctx s db
    let r := ProcessClicks repo ctx (Select.done :: rest) s db
    let live : State σ := { st with stopped := false, ctx := { done := true } }
    let halted : State σ := { st with stopped := true }
    r.returned = true ∧ r.svc = f.svc ∧ r.db = f.db ∧ r.trace = f.trace ∧
      flushCalls r.trace = 1 ∧
      savedMaps r.trace = (if s.clickMap = [] then [] else [s.clickMap]) ∧
      r.svc.clickMap = [] ∧
      r = ProcessClicks repo ctx [Select.done] s db ∧
      (step repo live (Action.worker Branch.done)).stopped = true ∧
      (step repo live (Action.worker Branch.done)).trace =
        st.trace ++ (flushClicks repo live.ctx st.svc st.db).trace ∧
      step repo halted (Action.worker b) = halted := by
  intro f r live halted
  obtain ⟨h1, h2, h3⟩ := flushClicks_summary repo ctx s db
  have hr : r = { svc := f.svc, db := f.db, trace := f.trace, returned := true } := by
    simp [r, f, ProcessClicks, loopBody]
  refine ⟨?_, ?_, ?_, ?_, ?_, ?_, ?_, ?_, ?_, ?_, ?_⟩
  · rw [hr]
  · rw [hr]
  · rw [hr]
  · rw [hr]
  · rw [hr]
    exact h3
  · rw [hr]
    exact h2
  · rw [hr]
    show (flushClicks repo ctx s db).svc.clickMap = []
    rw [h1]
  · simp [r, ProcessClicks, loopBody]
  · simp [live, step, State.afterIter, loopBody]
  · simp [live, step, State.afterIter, loopBody]
  · simp [halted, step]

/-! ## RegisterClick -/

/-- C6: when the lookup `BannerExists` answers false, `RegisterClick` completes with the
error `banner not found`; when the lookup itself fails, `RegisterClick` completes with
that very error; in both cases the channel and the map are unchanged, and in the
transition system the event is not recorded as accepted. -/
theorem C6_RegisterClick_rejects_unknown_banner {σ : Type} (repo : Repository σ)
    (ctx : Context) (bannerID : UUID) (pick : Pick) (s : service) (db : σ) (st : State σ) :
    (∀ db1 : σ, repo.BannerExists ctx bannerID db = (Except.ok false, db1) →
        ∃ r, RegisterClick repo ctx bannerID pick s db = some r ∧
          r.err = some Error.bannerNotFound ∧ r.svc = s ∧ savedMaps r.trace = []) ∧
      (∀ (err : Error) (db1 : σ),
        repo.BannerExists ctx bannerID db = (Except.error err, db1) →
        ∃ r, RegisterClick repo ctx bannerID pick s db = some r ∧
          r.err = some err ∧ r.svc = s ∧ savedMaps r.trace = []) ∧
      ((repo.BannerExists ctx bannerID st.db).1 ≠ Except.ok true →
        (step repo st (Action.register ctx bannerID pick)).svc = st.svc ∧
        (step repo st (Action.register ctx bannerID pick)).accepted = st.accepted) := by
  refine ⟨?_, ?_, ?_⟩
  · intro db1 h
    simp [RegisterClick, h, savedMaps]
  · intro err db1 h
    simp [RegisterClick, h, savedMaps]
  · intro h
    rcases hb : repo.BannerExists ctx bannerID st.db with ⟨res, db1⟩
    rw [hb] at h
    cases res with
    | error err => simp [step, RegisterClick, hb]
    | ok found =>
      cases found with
      | false => simp [step, RegisterClick, hb]
      | true => exact absurd rfl h

/-- C7: on a banner that exists, `RegisterClick` stays blocked exactly when the channel is
full and the context is live; a call that completes either returns nil with the banner
id appended to the channel, whose length stays within the capacity 1000, and the map
untouched, or returns the error of the context, which is then done, with the channel
and the map untouched; the two outcomes exclude each other. -/
theorem C7_RegisterClick_enqueue_or_cancel {σ : Type} (repo : Repository σ)
    (ctx : Context) (bannerID : UUID) (pick : Pick) (s : service) (db db1 : σ)
    (hex : repo.BannerExists ctx bannerID db = (Except.ok true, db1)) :
    (RegisterClick repo ctx bannerID pick s db = none ↔
        (¬ s.clicks.length < clicksCap ∧ ctx.done = false)) ∧
      ∀ r, RegisterClick repo ctx bannerID pick s db = some r →
        ((r.err = none ∧ r.svc.clicks = s.clicks ++ [bannerID] ∧
            r.svc.clicks.length ≤ 1000 ∧ r.svc.clickMap = s.clickMap) ∨
          (r.err = some Error.canceled ∧ ctx.done = true ∧ r.svc = s)) ∧
        ¬ (r.err = none ∧ r.svc = s) ∧
        ¬ (r.err ≠ none ∧ r.svc.clicks = s.clicks ++ [bannerID]) := by
  by_cases hroom : s.clicks.length < clicksCap <;> by_cases hdone : ctx.done = true
  · cases pick
    · refine ⟨by simp [RegisterClick, hex, hroom, hdone], ?_⟩
      intro r hr
      simp only [RegisterClick, hex, hroom, hdone, if_true, Option.some.injEq] at hr
      subst hr
      have h1000 : s.clicks.length + 1 ≤ 1000 := hroom
      refine ⟨Or.inl ⟨rfl, rfl, by simpa using h1000, rfl⟩, ?_, ?_⟩
      · rintro ⟨_, h2⟩
        have := congrArg (fun x => x.clicks.length) h2
        simp at this
      · rintro ⟨h1, _⟩
        exact h1 rfl
    · refine ⟨by simp [RegisterClick, hex, hroom, hdone], ?_⟩
      intro r hr
      simp only [RegisterClick, hex, hroom, hdone, if_true, Option.some.injEq] at hr
      subst hr
      refine ⟨Or.inr ⟨by simp [Context.Err, hdone], hdone, rfl⟩, ?_, ?_⟩
      · rintro ⟨h1, _⟩
        simp [Context.Err, hdone] at h1
      · rintro ⟨_, h2⟩
        have := congrArg List.length h2
        simp at this
  · have hd : ctx.done = false := by simpa using hdone
    refine ⟨by simp [RegisterClick, hex, hroom, hd], ?_⟩
    intro r hr
    simp only [RegisterClick, hex, hroom, hd, if_true, Bool.false_eq_true, if_false,
      Option.some.injEq] at hr
    subst hr
    have h1000 : s.clicks.length + 1 ≤ 1000 := hroom
    refine ⟨Or.inl ⟨rfl, rfl, by simpa using h1000, rfl⟩, ?_, ?_⟩
    · rintro ⟨_, h2⟩
      have := congrArg (fun x => x.clicks.length) h2
      simp at this
    · rintro ⟨h1, _⟩
      exact h1 rfl
  · refine ⟨by simp [RegisterClick, hex, hroom, hdone], ?_⟩
    intro r hr
    simp only [RegisterClick, hex, hroom, hdone, if_true, if_false, Option.some.injEq] at hr
    subst hr
    refine ⟨Or.inr ⟨by simp [Context.Err, hdone], hdone, rfl⟩, ?_, ?_⟩
    · rintro ⟨h1, _⟩
      simp [Context.Err, hdone] at h1
    · rintro ⟨_, h2⟩
      have := congrArg List.length h2
      simp at this
  · have hd : ctx.done = false := by simpa using hdone
    refine ⟨by simp [RegisterClick, hex, hroom, hd], ?_⟩
    intro r hr
    simp [RegisterClick, hex, hroom, hd] at hr

/-- Witness of C7: a live request for banner 1 on the freshly built service. -/
theorem C7_RegisterClick_enqueue_or_cancel_witness :
    NewRepository.BannerExists { done := false } 1 sampleDB = (Except.ok true, sampleDB) ∧
      (RegisterClick NewRepository { done := false } 1 Pick.send NewService sampleDB = none ↔
        (¬ NewService.clicks.length < clicksCap ∧
          ({ done := false } : Context).done = false)) :=
  ⟨rfl, (C7_RegisterClick_enqueue_or_cancel NewRepository { done := false } 1 Pick.send
    NewService sampleDB sampleDB rfl).1⟩

/-- C8: on a banner that exists, a completed `RegisterClick` returns the cancellation
error only if the context is done.  The context it receives is the `*gin.Context` of an
engine built by `gin.Default()`, which is never done (`done = false`); for such a
context, in every state in which the channel holds fewer than 1000 events the call
completes, appends the event and returns nil; no completed call returns an error, so
the cancellation error is never returned while the channel has room; and on a full
channel the call stays blocked. -/
theorem C8_RegisterClick_accepts_while_room {σ : Type} (repo : Repository σ)
    (ctx : Context) (bannerID : UUID) (pick : Pick) (s : service) (db db1 : σ)
    (hex : repo.BannerExists ctx bannerID db = (Except.ok true, db1)) :
    (∀ r, RegisterClick repo ctx bannerID pick s db = some r →
        r.err = some Error.canceled → ctx.done = true ∧ r.svc = s) ∧
      (ctx.done = false → s.clicks.length < 1000 →
        ∃ r, RegisterClick repo ctx bannerID pick s db = some r ∧ r.err = none ∧
          r.svc.clicks = s.clicks ++ [bannerID] ∧ r.svc.clickMap = s.clickMap) ∧
      (ctx.done = false → ∀ r, RegisterClick repo ctx bannerID pick s db = some r →
        r.err = none ∧ s.clicks.length < 1000) ∧
      (ctx.done = false → ¬ s.clicks.length < 1000 →
        RegisterClick repo ctx bannerID pick s db = none) := by
  refine ⟨?_, ?_, ?_, ?_⟩
  · intro r hr herr
    by_cases hroom : s.clicks.length < clicksCap <;> by_cases hdone : ctx.done = true
    · cases pick
      · simp only [RegisterClick, hex, hroom, hdone, if_true, Option.some.injEq] at hr
        subst hr
        simp at herr
      · simp only [RegisterClick, hex, hroom, hdone, if_true, Option.some.injEq] at hr
        subst hr
        exact ⟨hdone, rfl⟩
    · have hd : ctx.done = false := by simpa using hdone
      simp only [RegisterClick, hex, hroom, hd, if_true, Bool.false_eq_true, if_false,
        Option.some.injEq] at hr
      subst hr
      simp at herr
    · simp only [RegisterClick, hex, hroom, hdone, if_true, if_false,
        Option.some.injEq] at hr
      subst hr
      exact ⟨hdone, rfl⟩
    · have hd : ctx.done = false := by simpa using hdone
      simp [RegisterClick, hex, hroom, hd] at hr
  · intro hd hroom
    have hroom2 : s.clicks.length < clicksCap := hroom
    simp [RegisterClick, hex, hroom2, hd]
  · intro hd r hr
    by_cases hroom : s.clicks.length < clicksCap
    · simp only [RegisterClick, hex, hroom, hd, if_true, Bool.false_eq_true, if_false,
        Option.some.injEq] at hr
      subst hr
      exact ⟨rfl, hroom⟩
    · simp [RegisterClick, hex, hroom, hd] at hr
  · intro hd hroom
    have hroom2 : ¬ s.clicks.length < clicksCap := hroom
    simp [RegisterClick, hex, hroom2, hd]

/-- Witness of C8: a request for banner 1 on the freshly built service, whose channel is
empty, is accepted. -/
theorem C8_RegisterClick_accepts_while_room_witness :
    NewRepository.BannerExists liveCtx 1 sampleDB = (Except.ok true, sampleDB) ∧
      (∃ r, RegisterClick NewRepository liveCtx 1 Pick.done NewService sampleDB = some r ∧
        r.err = none ∧ r.svc.clicks = NewService.clicks ++ [1] ∧
        r.svc.clickMap = NewService.clickMap) :=
  ⟨rfl, (C8_RegisterClick_accepts_while_room NewRepository liveCtx 1 Pick.done NewService
    sampleDB sampleDB rfl).2.1 rfl (by decide)⟩

/-! ## Conservation of accepted events -/

theorem savedMaps_append (t1 t2 : List Event) :
    savedMaps (t1 ++ t2) = savedMaps t1 ++ savedMaps t2 := by
  induction t1 with
  | nil => simp [savedMaps]
  | cons e rest ih => cases e <;> simp [savedMaps, ih]

theorem handedCount_append (t1 t2 : List Event) (b : UUID) :
    handedCount (t1 ++ t2) b = handedCount t1 b + handedCount t2 b := by
  simp [handedCount, savedMaps_append]

theorem get_nil (b : UUID) : ClickMap.get [] b = 0 := by
  simp [ClickMap.get, ClickMap.find]

theorem handedCount_flushClicks {σ : Type} (repo : Repository σ) (ctx : Context)
    (s : service) (db : σ) (b : UUID) :
    handedCount (flushClicks repo ctx s db).trace b = s.clickMap.get b := by
  have h := (flushClicks_summary repo ctx s db).2.1
  unfold handedCount
  rw [h]
  by_cases hm : s.clickMap = []
  · simp [hm, get_nil]
  · simp [hm]

/-- Every completed `RegisterClick` leaves the map alone and makes no repository write;
it either returns nil having appended the id to a channel that had room, or returns an
error having changed nothing. -/
theorem RegisterClick_effect {σ : Type} (repo : Repository σ) (ctx : Context)
    (bannerID : UUID) (pick : Pick) (s : service) (db : σ) (r : Reply σ)
    (hr : RegisterClick repo ctx bannerID pick s db = some r) :
    r.svc.clickMap = s.clickMap ∧ savedMaps r.trace = [] ∧
      ((r.err = none ∧ r.svc.clicks = s.clicks ++ [bannerID] ∧
          s.clicks.length < clicksCap) ∨
        (r.err ≠ none ∧ r.svc = s)) := by
  rcases hb : repo.BannerExists ctx bannerID db with ⟨res, db1⟩
  cases res with
  | error err =>
    simp only [RegisterClick, hb, Option.some.injEq] at hr
    subst hr
    simp [savedMaps]
  | ok found =>
    cases found with
    | false =>
      simp only [RegisterClick, hb, Option.some.injEq] at hr
      subst hr
      simp [savedMaps]
    | true =>
      by_cases hroom : s.clicks.length < clicksCap <;> by_cases hdone : ctx.done = true
      · cases pick
        · simp only [RegisterClick, hb, hroom, hdone, if_true, Option.some.injEq] at hr
          subst hr
          simp [savedMaps, hroom]
        · simp only [RegisterClick, hb, hroom, hdone, if_true, Option.some.injEq] at hr
          subst hr
          simp [savedMaps, Context.Err, hdone]
      · have hd : ctx.done = false := by simpa using hdone
        simp only [RegisterClick, hb, hroom, hd, if_true, Bool.false_eq_true, if_false,
          Option.some.injEq] at hr
        subst hr
        simp [savedMaps, hroom]
      · simp only [RegisterClick, hb, hroom, hdone, if_true, if_false,
          Option.some.injEq] at hr
        subst hr
        simp [savedMaps, Context.Err, hdone]
      · have hd : ctx.done = false := by simpa using hdone
        simp [RegisterClick, hb, hroom, hd] at hr

/-- One atomic step keeps the balance between accepted events on one side and events
handed to `SaveClicks`, pending in the map, or waiting in the channel on the other; it
keeps the map of a stopped worker empty and the channel within its capacity. -/
theorem step_balance {σ : Type} (repo : Repository σ) (st : State σ) (a : Action)
    (h1 : ∀ b : UUID, (st.accepted.count b : Int) =
      handedCount st.trace b + st.svc.clickMap.get b + (st.svc.clicks.count b : Int))
    (h2 : st.stopped = true → st.svc.clickMap = [])
    (h3 : st.svc.clicks.length ≤ clicksCap) :
    (∀ b : UUID, ((step repo st a).accepted.count b : Int) =
        handedCount (step repo st a).trace b + (step repo st a).svc.clickMap.get b +
          ((step repo st a).svc.clicks.count b : Int)) ∧
      ((step repo st a).stopped = true → (step repo st a).svc.clickMap = []) ∧
      (step repo st a).svc.clicks.length ≤ clicksCap := by
  cases a with
  | register reqCtx bannerID pick =>
    cases hR : RegisterClick repo reqCtx bannerID pick st.svc st.db with
    | none => simpa [step, hR] using ⟨h1, h2, h3⟩
    | some r =>
      obtain ⟨hmap, hsaved, hcase⟩ := RegisterClick_effect repo reqCtx bannerID pick _ _ r hR
      have htrace : ∀ b, handedCount (st.trace ++ r.trace) b = handedCount st.trace b := by
        intro b
        rw [handedCount_append]
        simp [handedCount, hsaved]
      rcases hcase with ⟨herr, hclicks, hroom⟩ | ⟨herr, hsvc⟩
      · simp only [step, hR, herr, if_true]
        refine ⟨?_, ?_, ?_⟩
        · intro b
          rw [htrace, hmap, hclicks, List.count_append, List.count_append]
          have := h1 b
          push_cast
          omega
        · intro hs
          rw [hmap]
          exact h2 hs
        · rw [hclicks]
          simp only [List.length_append, List.length_singleton]
          exact hroom
      · simp only [step, hR, herr, if_false]
        refine ⟨?_, ?_, ?_⟩
        · intro b
          rw [htrace, hsvc]
          exact h1 b
        · intro hs
          rw [hsvc]
          exact h2 hs
        · rw [hsvc]
          exact h3
  | cancel => simpa [step] using ⟨h1, h2, h3⟩
  | worker br =>
    by_cases hst : st.stopped = true
    · simpa [step, hst] using ⟨h1, h2 hst, h3⟩
    · have hflush := flushClicks_summary repo st.ctx st.svc st.db
      cases br with
      | done =>
        by_cases hd : st.ctx.done = true
        · simp only [step, hst, hd, if_true, if_false, State.afterIter, loopBody,
            Bool.false_eq_true]
          refine ⟨?_, ?_, ?_⟩
          · intro b
            rw [handedCount_append, handedCount_flushClicks, hflush.1]
            have := h1 b
            simp only [get_nil]
            omega
          · intro _
            rw [hflush.1]
          · rw [hflush.1]
            exact h3
        · simpa [step, hst, hd] using ⟨h1, h3⟩
      | recv =>
        cases hq : st.svc.clicks with
        | nil =>
          simp only [step, hst, hq, if_false, Bool.false_eq_true]
          refine ⟨?_, ?_, ?_⟩
          · intro b
            have := h1 b
            rw [hq] at this
            exact this
          · intro h
            exact h.elim
          · simp
        | cons e rest =>
          simp only [step, hst, hq, if_false, Bool.false_eq_true, State.afterIter, loopBody,
            List.append_nil]
          refine ⟨?_, ?_, ?_⟩
          · intro b
            have := h1 b
            rw [hq] at this
            by_cases heb : e = b
            · subst heb
              rw [get_incr_self]
              simp only [List.count_cons_self] at this
              push_cast at this
              omega
            · have hbe : b ≠ e := fun h => heb h.symm
              rw [get_incr_ne _ _ _ hbe]
              simp only [List.count_cons, beq_iff_eq, heb, if_false, add_zero] at this
              exact this
          · intro h
            cases h
          · rw [hq] at h3
            simp only [List.length_cons] at h3
            omega
      | tick =>
        simp only [step, hst, if_false, State.afterIter, loopBody, Bool.false_eq_true]
        refine ⟨?_, ?_, ?_⟩
        · intro b
          rw [handedCount_append, handedCount_flushClicks, hflush.1]
          have := h1 b
          simp only [get_nil]
          omega
        · intro h
          cases h
        · rw [hflush.1]
          exact h3

theorem run_balance {σ : Type} (repo : Repository σ) (acts : List Action) (st : State σ)
    (h1 : ∀ b : UUID, (st.accepted.count b : Int) =
      handedCount st.trace b + st.svc.clickMap.get b + (st.svc.clicks.count b : Int))
    (h2 : st.stopped = true → st.svc.clickMap = [])
    (h3 : st.svc.clicks.length ≤ clicksCap) :
    (∀ b : UUID, ((run repo st acts).accepted.count b : Int) =
        handedCount (run repo st acts).trace b + (run repo st acts).svc.clickMap.get b +
          ((run repo st acts).svc.clicks.count b : Int)) ∧
      ((run repo st acts).stopped = true → (run repo st acts).svc.clickMap = []) ∧
      (run repo st acts).svc.clicks.length ≤ clicksCap := by
  induction acts generalizing st with
  | nil => exact ⟨h1, h2, h3⟩
  | cons a rest ih =>
    obtain ⟨k1, k2, k3⟩ := step_balance repo st a h1 h2 h3
    exact ih (step repo st a) k1 k2 k3

/-- C3 fails as stated: a click on banner 1 is accepted, the context is cancelled and the
worker takes its cancellation branch; the worker is then stopped, yet the accepted
event still sits in the channel and no map was handed to `SaveClicks`. -/
theorem C3_counterexample_event_left_in_channel :
    (run NewRepository (State.init sampleDB) shutdownSchedule).stopped = true ∧
      (run NewRepository (State.init sampleDB) shutdownSchedule).accepted = [1] ∧
      savedMaps (run NewRepository (State.init sampleDB) shutdownSchedule).trace = [] ∧
      handedCount (run NewRepository (State.init sampleDB) shutdownSchedule).trace 1 = 0 ∧
      (run NewRepository (State.init sampleDB) shutdownSchedule).svc.clicks = [1] :=
  ⟨rfl, rfl, rfl, rfl, rfl⟩

/-- C3 as amended: in every reachable state and for every banner, the number of accepted
events equals the count handed to `SaveClicks` so far, plus the count pending in the
map, plus the number of its events still in the channel, and the channel holds at most
1000 events; once the worker has stopped the map is empty, so every accepted event has
either been counted in a map handed to `SaveClicks` or is still in the channel. -/
theorem C3_accepted_events_are_handed_or_queued {σ : Type} (repo : Repository σ) (db : σ)
    (acts : List Action) (b : UUID) :
    ((run repo (State.init db) acts).accepted.count b : Int) =
        handedCount (run repo (State.init db) acts).trace b +
          (run repo (State.init db) acts).svc.clickMap.get b +
          ((run repo (State.init db) acts).svc.clicks.count b : Int) ∧
      (run repo (State.init db) acts).svc.clicks.length ≤ 1000 ∧
      ((run repo (State.init db) acts).stopped = true →
        (run repo (State.init db) acts).svc.clickMap = [] ∧
        ((run repo (State.init db) acts).accepted.count b : Int) =
          handedCount (run repo (State.init db) acts).trace b +
            ((run repo (State.init db) acts).svc.clicks.count b : Int)) := by
  have hinit : ∀ b : UUID, (((State.init db : State σ).accepted.count b : Nat) : Int) =
      handedCount (State.init db : State σ).trace b +
        (State.init db : State σ).svc.clickMap.get b +
        (((State.init db : State σ).svc.clicks.count b : Nat) : Int) := by
    intro b
    simp [State.init, NewService, handedCount, savedMaps, get_nil]
  obtain ⟨k1, k2, k3⟩ := run_balance repo acts (State.init db) hinit
    (by simp [State.init]) (by simp [State.init, NewService])
  refine ⟨k1 b, k3, ?_⟩
  intro hs
  have hmap := k2 hs
  refine ⟨hmap, ?_⟩
  have := k1 b
  rw [hmap, get_nil] at this
  omega

/-! ## Shutdown -/

/-- The repository refuses every `SaveClicks` made on a context that is done: the
transaction is not begun and the tables are unchanged. -/
theorem SaveClicks_done_context (clicks : ClickMap) (db : DB) :
    SaveClicks { done := true } clicks db = (some Error.canceled, db) := by
  simp [SaveClicks, BeginTx, Context.Err]

/-- C4, the code at the failing input: with the map at `{1: 5, 2: 2}` and no tick, the
cancellation step calls `SaveClicks` on the context that has just been cancelled; the
call fails with the context error, the map is dropped, and table `clicks` stays empty.
The timer branch, run from the same state on the live context, stores both counts. -/
theorem C4_final_flush_is_refused :
    (run NewRepository (State.init sampleDB) pendingSchedule).svc =
        { clicks := [], clickMap := [(1, 5), (2, 2)] } ∧
      (run NewRepository (State.init sampleDB)
        (pendingSchedule ++ [Action.cancel, Action.worker Branch.done])).stopped = true ∧
      (run NewRepository (State.init sampleDB)
        (pendingSchedule ++ [Action.cancel, Action.worker Branch.done])).trace =
          [Event.flushClicks,
           Event.SaveClicks { done := true } [(1, 5), (2, 2)] (some Error.canceled),
           Event.logError "Failed to save clicks"] ∧
      (run NewRepository (State.init sampleDB)
        (pendingSchedule ++ [Action.cancel, Action.worker Branch.done])).svc.clickMap = [] ∧
      (run NewRepository (State.init sampleDB)
        (pendingSchedule ++ [Action.cancel, Action.worker Branch.done])).db.clicks = [] ∧
      (run NewRepository (State.init sampleDB)
        (pendingSchedule ++ [Action.worker Branch.tick])).db.clicks =
          [{ Timestamp := 660000000000, BannerID := 1, Count := 5 },
           { Timestamp := 660000000000, BannerID := 2, Count := 2 }] := by
  refine ⟨by decide, by decide, by decide, by decide, by decide, by decide⟩

/-! ## The repository -/

theorem countAt_nil (ts : Time) (b : UUID) : countAt [] ts b = none := by
  simp [countAt]

theorem countAt_cons (r : ClickStat) (rows : List ClickStat) (ts : Time) (b : UUID) :
    countAt (r :: rows) ts b = if r.hasKey ts b then some r.Count else countAt rows ts b := by
  unfold countAt
  by_cases h : r.hasKey ts b = true
  · simp [List.find?, h]
  · have hf : r.hasKey ts b = false := by simpa using h
    simp [List.find?, hf]

theorem countAt_eq_none_iff (rows : List ClickStat) (ts : Time) (b : UUID) :
    countAt rows ts b = none ↔ rows.any (fun r => r.hasKey ts b) = false := by
  induction rows with
  | nil => simp [countAt_nil]
  | cons r rest ih =>
    rw [countAt_cons]
    by_cases h : r.hasKey ts b = true
    · simp [h]
    · have hf : r.hasKey ts b = false := by simpa using h
      simp only [hf, Bool.false_eq_true, if_false, List.any_cons, Bool.false_or]
      exact ih

theorem countAt_append_of_none (rows : List ClickStat) (r : ClickStat) (ts : Time) (b : UUID)
    (h : countAt rows ts b = none) :
    countAt (rows ++ [r]) ts b = if r.hasKey ts b then some r.Count else none := by
  induction rows with
  | nil => simp [countAt_cons, countAt_nil]
  | cons r0 rest ih =>
    rw [countAt_cons] at h
    by_cases h0 : r0.hasKey ts b = true
    · simp [h0] at h
    · have hf : r0.hasKey ts b = false := by simpa using h0
      simp only [hf, Bool.false_eq_true, if_false] at h
      rw [List.cons_append, countAt_cons]
      simp only [hf, Bool.false_eq_true, if_false]
      exact ih h

theorem countAt_append_of_some (rows : List ClickStat) (r : ClickStat) (ts : Time) (b : UUID)
    (c : Int) (h : countAt rows ts b = some c) :
    countAt (rows ++ [r]) ts b = some c := by
  induction rows with
  | nil => simp [countAt_nil] at h
  | cons r0 rest ih =>
    rw [countAt_cons] at h
    rw [List.cons_append, countAt_cons]
    by_cases h0 : r0.hasKey ts b = true
    · simpa [h0] using h
    · have hf : r0.hasKey ts b = false := by simpa using h0
      simp only [hf, Bool.false_eq_true, if_false] at h ⊢
      exact ih h

theorem hasKey_iff (r : ClickStat) (ts : Time) (b : UUID) :
    r.hasKey ts b = true ↔ r.Timestamp = ts ∧ r.BannerID = b := by
  simp [ClickStat.hasKey]

/-- Count under a key after the rows with key `(ts, b)` have had `c` added. -/
theorem countAt_map_bump (rows : List ClickStat) (ts ts2 : Time) (b b2 : UUID) (c : Int) :
    countAt (rows.map (fun r => if r.hasKey ts b then { r with Count := r.Count + c } else r))
        ts2 b2 =
      if ts2 = ts ∧ b2 = b then (countAt rows ts2 b2).map (fun v => v + c)
      else countAt rows ts2 b2 := by
  induction rows with
  | nil => simp [countAt_nil]
  | cons r rest ih =>
    rw [List.map_cons, countAt_cons, countAt_cons, ih]
    by_cases hk : r.hasKey ts b = true
    · have hk2 := (hasKey_iff r ts b).mp hk
      by_cases hq : ts2 = ts ∧ b2 = b
      · obtain ⟨rfl, rfl⟩ := hq
        simp [hk, ClickStat.hasKey, hk2.1, hk2.2]
      · have hne : r.hasKey ts2 b2 = false := by
          rcases h : r.hasKey ts2 b2 with _ | _
          · rfl
          · have h2 := (hasKey_iff r ts2 b2).mp h
            exact absurd ⟨h2.1.symm.trans hk2.1, h2.2.symm.trans hk2.2⟩ hq
        have hne2 : ({ r with Count := r.Count + c } : ClickStat).hasKey ts2 b2 = false := by
          simpa [ClickStat.hasKey] using hne
        simp [hk, hq, hne, hne2]
    · have hf : r.hasKey ts b = false := by simpa using hk
      by_cases hq : ts2 = ts ∧ b2 = b
      · obtain ⟨rfl, rfl⟩ := hq
        simp [hf]
      · simp [hf, hq]

/-- Reading the table after one upsert: the key written holds its old count, or zero,
plus the increment; every other key reads as before. -/
theorem countAt_upsert (rows : List ClickStat) (ts ts2 : Time) (b b2 : UUID) (c : Int) :
    countAt (upsert rows ts b c) ts2 b2 =
      if ts2 = ts ∧ b2 = b then some ((countAt rows ts b).getD 0 + c)
      else countAt rows ts2 b2 := by
  unfold upsert
  by_cases hany : rows.any (fun r => r.hasKey ts b) = true
  · rw [if_pos hany, countAt_map_bump]
    by_cases hq : ts2 = ts ∧ b2 = b
    · obtain ⟨rfl, rfl⟩ := hq
      have hsome : countAt rows ts2 b2 ≠ none := by
        rw [Ne, countAt_eq_none_iff, hany]
        simp
      cases hc : countAt rows ts2 b2 with
      | none => exact absurd hc hsome
      | some v => simp
    · simp [hq]
  · have hf : rows.any (fun r => r.hasKey ts b) = false := by simpa using hany
    have hnone : countAt rows ts b = none := (countAt_eq_none_iff rows ts b).mpr hf
    rw [if_neg hany]
    by_cases hq : ts2 = ts ∧ b2 = b
    · obtain ⟨rfl, rfl⟩ := hq
      rw [countAt_append_of_none _ _ _ _ hnone]
      simp [hnone, ClickStat.hasKey]
    · have hkey : ({ Timestamp := ts, BannerID := b, Count := c } : ClickStat).hasKey ts2 b2
          = false := by
        rcases h : ({ Timestamp := ts, BannerID := b, Count := c } : ClickStat).hasKey ts2 b2
          with _ | _
        · rfl
        · have h2 := (hasKey_iff _ ts2 b2).mp h
          exact absurd ⟨h2.1.symm, h2.2.symm⟩ hq
      rw [if_neg hq]
      cases hc : countAt rows ts2 b2 with
      | none =>
        rw [countAt_append_of_none _ _ _ _ hc, hkey]
        simp
      | some v => exact countAt_append_of_some _ _ _ _ v hc

/-- One upsert leaves the rows of every other key as they were. -/
theorem filter_upsert_other (rows : List ClickStat) (ts ts2 : Time) (b b2 : UUID) (c : Int)
    (hq : ¬ (ts2 = ts ∧ b2 = b)) :
    (upsert rows ts b c).filter (fun r => r.hasKey ts2 b2) =
      rows.filter (fun r => r.hasKey ts2 b2) := by
  have hother : ∀ r : ClickStat, r.hasKey ts b = true → r.hasKey ts2 b2 = false := by
    intro r hk
    have hk2 := (hasKey_iff r ts b).mp hk
    rcases h : r.hasKey ts2 b2 with _ | _
    · rfl
    · have h2 := (hasKey_iff r ts2 b2).mp h
      exact absurd ⟨h2.1.symm.trans hk2.1, h2.2.symm.trans hk2.2⟩ hq
  unfold upsert
  by_cases hany : rows.any (fun r => r.hasKey ts b) = true
  · rw [if_pos hany]
    clear hany
    induction rows with
    | nil => simp
    | cons r rest ih =>
      by_cases hk : r.hasKey ts b = true
      · have h1 := hother r hk
        have h2 : ({ r with Count := r.Count + c } : ClickStat).hasKey ts2 b2 = false := by
          simpa [ClickStat.hasKey] using h1
        simp only [List.map_cons, hk, if_true, List.filter_cons, h1, h2, Bool.false_eq_true,
          if_false]
        exact ih
      · have hf : r.hasKey ts b = false := by simpa using hk
        simp only [List.map_cons, hf, Bool.false_eq_true, if_false, List.filter_cons]
        rw [ih]
  · rw [if_neg hany, List.filter_append]
    have := hother { Timestamp := ts, BannerID := b, Count := c } (by simp [ClickStat.hasKey])
    simp [List.filter_cons, this]

/-- A row of the table after one upsert was there before or carries the key written. -/
theorem mem_upsert (rows : List ClickStat) (ts : Time) (b : UUID) (c : Int) (r : ClickStat)
    (h : r ∈ upsert rows ts b c) : r ∈ rows ∨ (r.Timestamp = ts ∧ r.BannerID = b) := by
  unfold upsert at h
  by_cases hany : rows.any (fun r => r.hasKey ts b) = true
  · rw [if_pos hany, List.mem_map] at h
    obtain ⟨r0, hr0, heq⟩ := h
    by_cases hk : r0.hasKey ts b = true
    · have hk2 := (hasKey_iff r0 ts b).mp hk
      simp only [hk, if_true] at heq
      right
      rw [← heq]
      exact hk2
    · have hf : r0.hasKey ts b = false := by simpa using hk
      simp only [hf, Bool.false_eq_true, if_false] at heq
      left
      rw [← heq]
      exact hr0
  · rw [if_neg hany, List.mem_append, List.mem_singleton] at h
    rcases h with h | h
    · exact Or.inl h
    · right
      rw [h]
      exact ⟨rfl, rfl⟩

theorem get_cons_self (k : UUID) (v : Int) (rest : ClickMap) :
    ClickMap.get ((k, v) :: rest) k = v := by
  simp [ClickMap.get, ClickMap.find]

theorem get_cons_ne (k k2 : UUID) (v : Int) (rest : ClickMap) (h : k ≠ k2) :
    ClickMap.get ((k, v) :: rest) k2 = ClickMap.get rest k2 := by
  simp [ClickMap.get, ClickMap.find, h]

/-- The loop of `SaveClicks`, when it runs to its end over a map with distinct keys:
each key of the map, under the one timestamp, holds its old count (or zero) plus the
map value; rows of all other keys are as before; every row is old or carries the
timestamp and a key of the map. -/
theorem execLoop_ok (fault : Fault) (now : Time) (clicks : ClickMap) :
    ∀ (i : Nat) (rows rows2 : List ClickStat), clicks.keys.Nodup →
      execLoop fault now i clicks rows = Except.ok rows2 →
      (∀ b : UUID, countAt rows2 now b =
          if b ∈ clicks.keys then some ((countAt rows now b).getD 0 + clicks.get b)
          else countAt rows now b) ∧
        (∀ (ts : Time) (b : UUID), ¬ (ts = now ∧ b ∈ clicks.keys) →
          rows2.filter (fun r => r.hasKey ts b) = rows.filter (fun r => r.hasKey ts b)) ∧
        (∀ r ∈ rows2, r ∈ rows ∨ (r.Timestamp = now ∧ r.BannerID ∈ clicks.keys)) := by
  induction clicks with
  | nil =>
    intro i rows rows2 _ h
    simp only [execLoop, Except.ok.injEq] at h
    subst h
    simp [ClickMap.keys]
  | cons e rest ih =>
    obtain ⟨k, v⟩ := e
    intro i rows rows2 hnd h
    have hnd2 : k ∉ ClickMap.keys rest ∧ (ClickMap.keys rest).Nodup := by
      simpa [ClickMap.keys] using hnd
    cases hf : fault.execErr i with
    | some err => simp [execLoop, hf] at h
    | none =>
      simp only [execLoop, hf] at h
      obtain ⟨ih1, ih2, ih3⟩ := ih (i + 1) (upsert rows now k v) rows2 hnd2.2 h
      have hkeys : ∀ b : UUID, b ∈ ClickMap.keys ((k, v) :: rest) ↔
          (b = k ∨ b ∈ ClickMap.keys rest) := by
        intro b
        simp [ClickMap.keys]
      refine ⟨?_, ?_, ?_⟩
      · intro b
        rw [ih1 b]
        by_cases hb : b = k
        · subst hb
          have hmem : b ∈ ClickMap.keys ((b, v) :: rest) := (hkeys b).mpr (Or.inl rfl)
          rw [if_neg hnd2.1, if_pos hmem, countAt_upsert, get_cons_self]
          simp
        · have hkb : k ≠ b := fun h => hb h.symm
          rw [countAt_upsert, get_cons_ne k b v rest hkb]
          have hneq : ¬ (now = now ∧ b = k) := fun h => hb h.2
          simp [hkeys b, hb]
      · intro ts b hq
        have hq1 : ¬ (ts = now ∧ b ∈ ClickMap.keys rest) := by
          intro hc
          exact hq ⟨hc.1, (hkeys b).mpr (Or.inr hc.2)⟩
        have hq2 : ¬ (ts = now ∧ b = k) := by
          intro hc
          exact hq ⟨hc.1, (hkeys b).mpr (Or.inl hc.2)⟩
        rw [ih2 ts b hq1, filter_upsert_other rows now ts k b v hq2]
      · intro r hr
        rcases ih3 r hr with h1 | ⟨h1, h2⟩
        · rcases mem_upsert rows now k v r h1 with h3 | ⟨h3, h4⟩
          · exact Or.inl h3
          · exact Or.inr ⟨h3, (hkeys _).mpr (Or.inl h4)⟩
        · exact Or.inr ⟨h1, (hkeys _).mpr (Or.inr h2)⟩

theorem countAt_filter (rows : List ClickStat) (ts : Time) (b : UUID) :
    countAt (rows.filter (fun r => r.hasKey ts b)) ts b = countAt rows ts b := by
  induction rows with
  | nil => simp
  | cons r rest ih =>
    by_cases hk : r.hasKey ts b = true
    · simp [List.filter_cons, hk, countAt_cons]
    · have hf : r.hasKey ts b = false := by simpa using hk
      simp [List.filter_cons, hf, countAt_cons, ih]

theorem get_nonneg (m : ClickMap) (b : UUID) (h : ∀ e ∈ m, (0 : Int) ≤ e.2) :
    0 ≤ m.get b := by
  induction m with
  | nil => simp [get_nil]
  | cons e rest ih =>
    obtain ⟨k, v⟩ := e
    by_cases hk : k = b
    · subst hk
      rw [get_cons_self]
      exact h (k, v) (List.mem_cons_self _ _)
    · rw [get_cons_ne k b v rest hk]
      exact ih (fun e he => h e (List.mem_cons_of_mem _ he))

/-- A successful `SaveClicks` ran the whole loop and committed its result. -/
theorem SaveClicks_ok (ctx : Context) (clicks : ClickMap) (db : DB)
    (h : (SaveClicks ctx clicks db).1 = none) :
    ∃ rows2, execLoop db.fault (Truncate db.now Minute) 0 clicks db.clicks = Except.ok rows2 ∧
      (SaveClicks ctx clicks db).2 = { db with clicks := rows2 } := by
  cases hb : BeginTx ctx db.fault with
  | some err => simp [SaveClicks, hb] at h
  | none =>
    cases hp : db.fault.prepareErr with
    | some err => simp [SaveClicks, hb, hp] at h
    | none =>
      cases he : execLoop db.fault (Truncate db.now Minute) 0 clicks db.clicks with
      | error err => simp [SaveClicks, hb, hp, he] at h
      | ok rows2 =>
        cases hc : db.fault.commitErr with
        | some err => simp [SaveClicks, hb, hp, he, hc] at h
        | none => exact ⟨rows2, rfl, by simp [SaveClicks, hb, hp, he, hc]⟩

/-- A failed `SaveClicks` leaves the database as it was. -/
theorem SaveClicks_err (ctx : Context) (clicks : ClickMap) (db : DB)
    (h : (SaveClicks ctx clicks db).1 ≠ none) : (SaveClicks ctx clicks db).2 = db := by
  cases hb : BeginTx ctx db.fault with
  | some err => simp [SaveClicks, hb]
  | none =>
    cases hp : db.fault.prepareErr with
    | some err => simp [SaveClicks, hb, hp]
    | none =>
      cases he : execLoop db.fault (Truncate db.now Minute) 0 clicks db.clicks with
      | error err => simp [SaveClicks, hb, hp, he]
      | ok rows2 =>
        cases hc : db.fault.commitErr with
        | some err => simp [SaveClicks, hb, hp, he, hc]
        | none => simp [SaveClicks, hb, hp, he, hc] at h

/-- Every row after the loop of `SaveClicks` is an old row or carries the timestamp of
the call and a key of the map. -/
theorem execLoop_mem (fault : Fault) (now : Time) (clicks : ClickMap) :
    ∀ (i : Nat) (rows rows2 : List ClickStat),
      execLoop fault now i clicks rows = Except.ok rows2 →
      ∀ r ∈ rows2, r ∈ rows ∨ (r.Timestamp = now ∧ r.BannerID ∈ clicks.keys) := by
  induction clicks with
  | nil =>
    intro i rows rows2 h r hr
    simp only [execLoop, Except.ok.injEq] at h
    subst h
    exact Or.inl hr
  | cons e rest ih =>
    obtain ⟨k, v⟩ := e
    intro i rows rows2 h r hr
    cases hf : fault.execErr i with
    | some err => simp [execLoop, hf] at h
    | none =>
      simp only [execLoop, hf] at h
      rcases ih (i + 1) _ rows2 h r hr with h1 | ⟨h1, h2⟩
      · rcases mem_upsert _ _ k v r h1 with h3 | ⟨h3, h4⟩
        · exact Or.inl h3
        · exact Or.inr ⟨h3, by simp [ClickMap.keys, h4]⟩
      · exact Or.inr ⟨h1, by
          simp only [ClickMap.keys, List.map_cons, List.mem_cons]
          exact Or.inr h2⟩

theorem truncate_minute (t : Int) :
    Truncate t Minute = t - t % 60000000000 ∧
      (60000000000 : Int) ∣ t - t % 60000000000 ∧
      t - t % 60000000000 ≤ t ∧ t < t - t % 60000000000 + 60000000000 := by
  refine ⟨by simp [Truncate, Minute], ?_, ?_, ?_⟩ <;> omega

theorem execLoop_never (now : Time) (clicks : ClickMap) (i : Nat) (rows : List ClickStat) :
    ∃ rows2, execLoop Fault.never now i clicks rows = Except.ok rows2 := by
  induction clicks generalizing i rows with
  | nil => exact ⟨rows, rfl⟩
  | cons e rest ih =>
    obtain ⟨k, v⟩ := e
    simp only [execLoop, Fault.execErr]
    exact ih (i + 1) _

/-- On a live context and a healthy driver `SaveClicks` succeeds. -/
theorem SaveClicks_succeeds (clicks : ClickMap) (db : DB) (hf : db.fault = Fault.never) :
    (SaveClicks { done := false } clicks db).1 = none := by
  obtain ⟨rows2, h2⟩ := execLoop_never (Truncate db.now Minute) clicks 0 db.clicks
  simp [SaveClicks, BeginTx, hf, Fault.prepareErr, Fault.commitErr, h2]

/-- C9: a successful `SaveClicks` of the map `M` at time bucket `T` leaves, for every
banner of `M` that had a row at `(T, b)`, the count `old + M[b]`; for every banner of
`M` that had none, a new row `(T, b, M[b])`; the rows of every other key unchanged,
and table `banners` unchanged.  Hence, the counts of a click map being non-negative,
no stored count is overwritten or decreased by the flush. -/
theorem C9_SaveClicks_adds_to_stored_counts (ctx : Context) (M : ClickMap) (db : DB)
    (hkeys : M.keys.Nodup) (hok : (SaveClicks ctx M db).1 = none) :
    (∀ b ∈ M.keys, ∀ c : Int, countAt db.clicks (Truncate db.now Minute) b = some c →
        countAt (SaveClicks ctx M db).2.clicks (Truncate db.now Minute) b
          = some (c + M.get b)) ∧
      (∀ b ∈ M.keys, countAt db.clicks (Truncate db.now Minute) b = none →
        countAt (SaveClicks ctx M db).2.clicks (Truncate db.now Minute) b = some (M.get b) ∧
        ({ Timestamp := Truncate db.now Minute, BannerID := b, Count := M.get b } : ClickStat)
          ∈ (SaveClicks ctx M db).2.clicks) ∧
      (∀ (ts : Time) (b : UUID), ¬ (ts = Truncate db.now Minute ∧ b ∈ M.keys) →
        (SaveClicks ctx M db).2.clicks.filter (fun r => r.hasKey ts b) =
          db.clicks.filter (fun r => r.hasKey ts b)) ∧
      ((∀ e ∈ M, (0 : Int) ≤ e.2) → ∀ (ts : Time) (b : UUID) (c : Int),
        countAt db.clicks ts b = some c →
        ∃ c2 : Int, countAt (SaveClicks ctx M db).2.clicks ts b = some c2 ∧ c ≤ c2) ∧
      (SaveClicks ctx M db).2.banners = db.banners := by
  obtain ⟨rows2, hloop, hdb⟩ := SaveClicks_ok ctx M db hok
  obtain ⟨h1, h2, _⟩ := execLoop_ok db.fault (Truncate db.now Minute) M 0 db.clicks rows2
    hkeys hloop
  have hclicks : (SaveClicks ctx M db).2.clicks = rows2 := by rw [hdb]
  rw [hclicks]
  refine ⟨?_, ?_, h2, ?_, by rw [hdb]⟩
  · intro b hb c hc
    rw [h1 b, if_pos hb, hc]
    rfl
  · intro b hb hc
    have hcount : countAt rows2 (Truncate db.now Minute) b = some (M.get b) := by
      rw [h1 b, if_pos hb, hc]
      simp
    refine ⟨hcount, ?_⟩
    unfold countAt at hcount
    cases hfind : rows2.find? (fun r => r.hasKey (Truncate db.now Minute) b) with
    | none => simp [hfind] at hcount
    | some r =>
      have hmem := List.mem_of_find?_eq_some hfind
      have hkey := List.find?_some hfind
      have hk2 := (hasKey_iff r _ b).mp hkey
      simp only [hfind, Option.map_some', Option.some.injEq] at hcount
      have : r = { Timestamp := Truncate db.now Minute, BannerID := b, Count := M.get b } := by
        cases r
        simp_all
      rw [← this]
      exact hmem
  · intro hpos ts b c hc
    by_cases hq : ts = Truncate db.now Minute ∧ b ∈ M.keys
    · obtain ⟨rfl, hb⟩ := hq
      refine ⟨c + M.get b, ?_, ?_⟩
      · rw [h1 b, if_pos hb, hc]
        rfl
      · have := get_nonneg M b hpos
        omega
    · refine ⟨c, ?_, le_refl c⟩
      rw [← countAt_filter rows2 ts b, h2 ts b hq, countAt_filter, hc]

/-- Witness of C9: the map `{1: 5, 2: 2}` saved on a live context at 690.5 s, over a
table that already holds 3 clicks on banner 1 in the bucket 660 s. -/
theorem C9_SaveClicks_adds_to_stored_counts_witness :
    (ClickMap.keys [(1, 5), (2, 2)]).Nodup ∧
      (SaveClicks liveCtx [(1, 5), (2, 2)] storedDB).1 = none ∧
      countAt (SaveClicks liveCtx [(1, 5), (2, 2)] storedDB).2.clicks
          (Truncate storedDB.now Minute) 1
        = some (3 + ClickMap.get [(1, 5), (2, 2)] 1) :=
  ⟨by decide, by decide,
    (C9_SaveClicks_adds_to_stored_counts liveCtx [(1, 5), (2, 2)] storedDB (by decide)
      (by decide)).1 1 (by decide) 3 (by decide)⟩

/-- C10: the timestamp `T` that `SaveClicks` computes once, before its loop, from the
clock reading `t` is `t` rounded down to a whole minute: a multiple of one minute with
`T <= t < T + 1 minute`.  Every row of table `clicks` after the call is a row that was
there before or carries `T` and a banner of the saved map; and after a successful call
every banner of the map has a row under `T`.  (Click events carry no time of their
own: the type of the channel is `uuid.UUID`.) -/
theorem C10_rows_carry_truncated_flush_time (ctx : Context) (M : ClickMap) (db : DB) :
    Minute ∣ Truncate db.now Minute ∧
      Truncate db.now Minute ≤ db.now ∧
      db.now < Truncate db.now Minute + Minute ∧
      (∀ r ∈ (SaveClicks ctx M db).2.clicks,
        r ∈ db.clicks ∨ (r.Timestamp = Truncate db.now Minute ∧ r.BannerID ∈ M.keys)) ∧
      ((SaveClicks ctx M db).1 = none → M.keys.Nodup → ∀ b ∈ M.keys,
        ∃ r ∈ (SaveClicks ctx M db).2.clicks,
          r.Timestamp = Truncate db.now Minute ∧ r.BannerID = b) := by
  obtain ⟨hT, hdvd, hle, hlt⟩ := truncate_minute db.now
  refine ⟨?_, ?_, ?_, ?_, ?_⟩
  · rw [hT]
    exact hdvd
  · rw [hT]
    exact hle
  · rw [hT]
    exact hlt
  · intro r hr
    by_cases hok : (SaveClicks ctx M db).1 = none
    · obtain ⟨rows2, hloop, hdb⟩ := SaveClicks_ok ctx M db hok
      rw [hdb] at hr
      exact execLoop_mem db.fault (Truncate db.now Minute) M 0 db.clicks rows2 hloop r hr
    · rw [SaveClicks_err ctx M db hok] at hr
      exact Or.inl hr
  · intro hok hkeys b hb
    obtain ⟨rows2, hloop, hdb⟩ := SaveClicks_ok ctx M db hok
    obtain ⟨h1, _, _⟩ := execLoop_ok db.fault (Truncate db.now Minute) M 0 db.clicks rows2
      hkeys hloop
    have hcount := h1 b
    rw [if_pos hb] at hcount
    have hclicks : (SaveClicks ctx M db).2.clicks = rows2 := by rw [hdb]
    rw [hclicks]
    unfold countAt at hcount
    cases hfind : rows2.find? (fun r => r.hasKey (Truncate db.now Minute) b) with
    | none => simp [hfind] at hcount
    | some r =>
      have hkey := List.find?_some hfind
      exact ⟨r, List.mem_of_find?_eq_some hfind, (hasKey_iff r _ b).mp hkey⟩

/-! ## Maps handed to the repository are well formed -/

theorem mem_set (m : ClickMap) (k : UUID) (v : Int) (e : UUID × Int)
    (h : e ∈ m.set k v) : e ∈ m ∨ e = (k, v) := by
  induction m with
  | nil =>
    simp only [ClickMap.set, List.mem_singleton] at h
    exact Or.inr h
  | cons e0 rest ih =>
    obtain ⟨k1, v1⟩ := e0
    by_cases hk : k1 = k
    · subst hk
      simp only [ClickMap.set, if_true, List.mem_cons] at h
      rcases h with h | h
      · exact Or.inr h
      · exact Or.inl (List.mem_cons_of_mem _ h)
    · simp only [ClickMap.set, hk, if_false, List.mem_cons] at h
      rcases h with h | h
      · exact Or.inl (h ▸ List.mem_cons_self _ _)
      · rcases ih h with h2 | h2
        · exact Or.inl (List.mem_cons_of_mem _ h2)
        · exact Or.inr h2

theorem keys_set (m : ClickMap) (k : UUID) (v : Int) :
    (m.set k v).keys = if k ∈ m.keys then m.keys else m.keys ++ [k] := by
  induction m with
  | nil => simp [ClickMap.set, ClickMap.keys]
  | cons e0 rest ih =>
    obtain ⟨k1, v1⟩ := e0
    by_cases hk : k1 = k
    · subst hk
      simp [ClickMap.set, ClickMap.keys]
    · have hk2 : ¬ k = k1 := fun h => hk h.symm
      simp only [ClickMap.keys] at ih
      by_cases hmem : k ∈ List.map Prod.fst rest
      · simp [ClickMap.set, ClickMap.keys, hk, hk2, hmem, ih]
      · simp [ClickMap.set, ClickMap.keys, hk, hk2, hmem, ih]

/-- The statement `m[k]++` keeps the keys distinct and the counts positive. -/
theorem incr_wellformed (m : ClickMap) (k : UUID)
    (h : m.keys.Nodup ∧ ∀ e ∈ m, (1 : Int) ≤ e.2) :
    (m.incr k).keys.Nodup ∧ ∀ e ∈ m.incr k, (1 : Int) ≤ e.2 := by
  obtain ⟨hnd, hpos⟩ := h
  refine ⟨?_, ?_⟩
  · unfold ClickMap.incr
    rw [keys_set]
    by_cases hmem : k ∈ m.keys
    · simpa [hmem] using hnd
    · simp only [hmem, if_false]
      rw [List.nodup_append]
      refine ⟨hnd, List.nodup_singleton k, ?_⟩
      intro a ha hb
      rw [List.mem_singleton] at hb
      exact hmem (hb ▸ ha)
  · intro e he
    rcases mem_set m k _ e he with h1 | h1
    · exact hpos e h1
    · have := get_nonneg m k (fun e he => le_trans (by decide) (hpos e he))
      rw [h1]
      show (1 : Int) ≤ m.get k + 1
      omega

theorem step_wellformed {σ : Type} (repo : Repository σ) (st : State σ) (a : Action)
    (h1 : st.svc.clickMap.keys.Nodup ∧ ∀ e ∈ st.svc.clickMap, (1 : Int) ≤ e.2)
    (h2 : ∀ m ∈ savedMaps st.trace, m.keys.Nodup ∧ ∀ e ∈ m, (1 : Int) ≤ e.2) :
    ((step repo st a).svc.clickMap.keys.Nodup ∧
        ∀ e ∈ (step repo st a).svc.clickMap, (1 : Int) ≤ e.2) ∧
      ∀ m ∈ savedMaps (step repo st a).trace, m.keys.Nodup ∧ ∀ e ∈ m, (1 : Int) ≤ e.2 := by
  have hnil : (ClickMap.keys []).Nodup ∧ ∀ e ∈ ([] : ClickMap), (1 : Int) ≤ e.2 := by
    simp [ClickMap.keys]
  have hflush : ∀ m ∈ savedMaps (st.trace ++ (flushClicks repo st.ctx st.svc st.db).trace),
      m.keys.Nodup ∧ ∀ e ∈ m, (1 : Int) ≤ e.2 := by
    intro m hm
    rw [savedMaps_append, List.mem_append] at hm
    rcases hm with hm | hm
    · exact h2 m hm
    · rw [(flushClicks_summary repo st.ctx st.svc st.db).2.1] at hm
      by_cases he : st.svc.clickMap = []
      · simp [he] at hm
      · simp only [he, if_false, List.mem_singleton] at hm
        rw [hm]
        exact h1
  have hsvc := (flushClicks_summary repo st.ctx st.svc st.db).1
  cases a with
  | register reqCtx bannerID pick =>
    cases hR : RegisterClick repo reqCtx bannerID pick st.svc st.db with
    | none =>
      simp only [step, hR]
      exact ⟨h1, h2⟩
    | some r =>
      obtain ⟨hmap, hsaved, _⟩ := RegisterClick_effect repo reqCtx bannerID pick _ _ r hR
      simp only [step, hR]
      refine ⟨by rw [hmap]; exact h1, ?_⟩
      intro m hm
      rw [savedMaps_append, hsaved, List.append_nil] at hm
      exact h2 m hm
  | cancel =>
    simp only [step]
    exact ⟨h1, h2⟩
  | worker br =>
    by_cases hst : st.stopped = true
    · simp only [step, hst, if_true]
      exact ⟨h1, h2⟩
    · cases br with
      | done =>
        by_cases hd : st.ctx.done = true
        · simp only [step, hst, hd, if_true, if_false, State.afterIter, loopBody,
            Bool.false_eq_true]
          refine ⟨by rw [hsvc]; exact hnil, hflush⟩
        · simp only [step, hst, hd, if_false, Bool.false_eq_true]
          exact ⟨h1, h2⟩
      | recv =>
        cases hq : st.svc.clicks with
        | nil =>
          simp only [step, hst, hq, if_false, Bool.false_eq_true]
          exact ⟨h1, h2⟩
        | cons e rest =>
          simp only [step, hst, hq, if_false, Bool.false_eq_true, State.afterIter, loopBody,
            List.append_nil]
          exact ⟨incr_wellformed _ e h1, h2⟩
      | tick =>
        simp only [step, hst, if_false, State.afterIter, loopBody, Bool.false_eq_true]
        refine ⟨by rw [hsvc]; exact hnil, hflush⟩

/-- Every map that the pipeline hands to `SaveClicks` has distinct keys and positive
counts, so the conditions under which `SaveClicks` is analysed hold for each flush. -/
theorem handed_maps_wellformed {σ : Type} (repo : Repository σ) (db : σ)
    (acts : List Action) :
    ∀ m ∈ savedMaps (run repo (State.init db) acts).trace,
      m.keys.Nodup ∧ ∀ e ∈ m, (1 : Int) ≤ e.2 := by
  have key : ∀ (acts : List Action) (st : State σ),
      (st.svc.clickMap.keys.Nodup ∧ ∀ e ∈ st.svc.clickMap, (1 : Int) ≤ e.2) →
      (∀ m ∈ savedMaps st.trace, m.keys.Nodup ∧ ∀ e ∈ m, (1 : Int) ≤ e.2) →
      ∀ m ∈ savedMaps (run repo st acts).trace, m.keys.Nodup ∧ ∀ e ∈ m, (1 : Int) ≤ e.2 := by
    intro acts
    induction acts with
    | nil =>
      intro st _ h2
      exact h2
    | cons a rest ih =>
      intro st h1 h2
      obtain ⟨k1, k2⟩ := step_wellformed repo st a h1 h2
      exact ih (step repo st a) k1 k2
  apply key acts (State.init db)
  · simp [State.init, NewService, ClickMap.keys]
  · simp [State.init, savedMaps]

/-- Scenario 1 of the specification: the events A, A, B followed by a flush hand the map
`{A: 2, B: 1}` to `SaveClicks` (A is banner 1, B is banner 2). -/
theorem flush_after_A_A_B :
    savedMaps (ProcessClicks NewRepository liveCtx
      [Select.recv 1, Select.recv 1, Select.recv 2, Select.tick] NewService sampleDB).trace
      = [[(1, 2), (2, 1)]] := by
  decide

end Clicker
